import Mathlib

/-!
Verification of the graph reconciliation engine of fluid-chey/visiontree,
embedded from src/webapp/src/shell/vscode-electron-shim.ts.

The shim orchestrates: fingerprint-gated polling, an incremental graph
rebuild with edge healing, position merging across rebuilds, bounded
undo/redo over full-graph snapshots, and best-effort disk persistence of
local edits.  The pure graph helpers the shim dynamically imports
(applyGraphDeltaToGraph, addNodeToGraphWithEdgeHealingFromFSEvent,
mapNewGraphToDelta, fromNodeToMarkdownContent, createEmptyGraph) are not
part of the provided sources; they are modelled from the specification and
marked as such in their doc comments.
-/

namespace VTShim

/-- Canvas position of a node, the disk-invisible UI metadata. -/
structure Pos where
  x : Int
  y : Int
deriving DecidableEq

/-- UI metadata of a node; position wrapped in Option so that absence is
distinguishable from the origin (fp-ts Option in the source). -/
structure NodeUIMetadata where
  position : Option Pos
deriving DecidableEq

/-- One markdown file as an in-memory node.  The id is the absolute file
path.  resolvedEdges holds the outbound references that edge healing has
materialized (targets that were present when the node was processed). -/
structure Node where
  absoluteFilePathIsID : String
  content : String
  nodeUIMetadata : NodeUIMetadata
  resolvedEdges : List String
deriving DecidableEq

/-- The graph: a mapping from node id to Node, embedded as an
insertion-ordered association list (a JavaScript object keyed by id). -/
structure Graph where
  nodes : List (String × Node)
deriving DecidableEq

/-- One operation of a GraphDelta, from the pure graph model. -/
inductive GraphDeltaOp where
  | UpsertNode (nodeToUpsert : Node)
  | DeleteNode (nodeId : String)
deriving DecidableEq

/-- An ordered batch of graph operations. -/
abbrev GraphDelta := List GraphDeltaOp

/-- One entry of the backend /files listing. -/
structure FileEntry where
  path : String
  content : String
deriving DecidableEq

/-- Kind of a file arrival event. -/
inductive FSEventType where
  | Added
  | Modified
  | Removed
deriving DecidableEq

/-- A file-system update event, the unit the builder consumes. -/
structure FSUpdate where
  absolutePath : String
  content : String
  eventType : FSEventType
deriving DecidableEq

/-- Outcome of fetching the /files listing: transport failure (network
error, non-OK response or missing files field) or a listing. -/
inductive FetchResult where
  | failure
  | ok (files : List FileEntry)
deriving DecidableEq

/-- Observable effects emitted by a shim operation, in emission order. -/
inductive EffectEvent where
  | diskWrite (filePath : String) (content : String) (succeeded : Bool)
  | diskDelete (filePath : String) (succeeded : Bool)
  | uiPush (delta : GraphDelta)
deriving DecidableEq

/-- The module-level mutable state of the shim (vscode-electron-shim.ts
lines 36 to 45, 173): the current graph cell, the two history stacks, the
stored fingerprint, the polling-suppression flag together with its pending
timer, the backend port and the registered UI subscriber. -/
structure ShimState where
  currentGraph : Option Graph
  undoStack : List Graph
  redoStack : List Graph
  lastFileFingerprint : String
  suppressPolling : Bool
  pendingSuppressClear : Bool
  backendPort : Bool
  hasCallback : Bool
deriving DecidableEq

/-- Result of one poll cycle: next state, emitted effects and the boolean
the source loadAndPushGraph returns. -/
structure PollResult where
  state : ShimState
  effects : List EffectEvent
  changed : Bool
deriving DecidableEq

/-- First-match association list lookup; keys are unique by construction,
matching JavaScript object indexing. -/
def lookupKey {α : Type} : List (String × α) → String → Option α
  | [], _ => none
  | (k, v) :: rest, id => if k = id then some v else lookupKey rest id

/-- Replace the value stored at an existing key, keeping its slot;
assignment to a present key of a JavaScript object. -/
def updateKey {α : Type} : List (String × α) → String → α → List (String × α)
  | [], _, _ => []
  | (k, v) :: rest, id, nv =>
      if k = id then (k, nv) :: rest else (k, v) :: updateKey rest id nv

/-- Insert-or-replace: replace in place when the key exists, append
otherwise; assignment to a JavaScript object key. -/
def upsertKey {α : Type} (l : List (String × α)) (id : String) (v : α) :
    List (String × α) :=
  if (lookupKey l id).isSome then updateKey l id v else l ++ [(id, v)]

/-- Remove a key if present; a JavaScript delete. -/
def eraseKey {α : Type} (l : List (String × α)) (id : String) :
    List (String × α) :=
  l.filter (fun p => p.1 != id)

/-- The empty graph, as built by getCurrentGraph when the cell is unset. -/
def emptyGraph : Graph := ⟨[]⟩

/-- Modelled from the spec: createEmptyGraph from the pure graph module is
not in the provided sources; section 4.2 starts every rebuild from an
empty Graph. -/
def createEmptyGraph : Graph := emptyGraph

/-- Modelled from the spec: one step of applyGraphDeltaToGraph (section
4.3): UpsertNode is create-or-replace with replace winning and no
field-level merge; DeleteNode removes the node if present and is a no-op
for an absent id. -/
def applyOp (g : Graph) : GraphDeltaOp → Graph
  | .UpsertNode n => ⟨upsertKey g.nodes n.absoluteFilePathIsID n⟩
  | .DeleteNode nid => ⟨eraseKey g.nodes nid⟩

/-- Modelled from the spec: applyGraphDeltaToGraph from the pure graph
module is not in the provided sources; section 4.3 specifies a pure fold
of the operations over the graph, strictly in delta order. -/
def applyGraphDeltaToGraph (g : Graph) (delta : GraphDelta) : Graph :=
  delta.foldl applyOp g

/-- Scanner for double-bracket references inside markdown content; the
accumulator holds the characters of a reference currently being read. -/
def refScan : List Char → Option (List Char) → List String
  | [], _ => []
  | '[' :: '[' :: rest, none => refScan rest (some [])
  | ']' :: ']' :: rest, some acc => String.mk acc.reverse :: refScan rest none
  | _ :: rest, none => refScan rest none
  | c :: rest, some acc => refScan rest (some (c :: acc))

/-- Modelled from the spec: the markdown reference parser is not in the
provided sources; a node's outbound references are its double-bracket
links, as in the section 8 example content. -/
def parseRefs (content : String) : List String :=
  refScan content.data none

/-- Last path segment of an absolute path (both separators, as the source
splits paths on slash and backslash). -/
def lastSegment (p : String) : String :=
  String.mk ((p.data.reverse.takeWhile (fun c => c != '/' && c != '\\')).reverse)

/-- Character-level suffix test, the JavaScript endsWith. -/
def strEndsWith (s suff : String) : Bool :=
  decide (suff.data.length ≤ s.data.length) &&
    s.data.drop (s.data.length - suff.data.length) == suff.data

/-- Drop the last n characters, the JavaScript slice(0, -n). -/
def strDropRight (s : String) (n : Nat) : String :=
  String.mk (s.data.take (s.data.length - n))

/-- Strip a trailing .md extension. -/
def stripMd (s : String) : String :=
  if strEndsWith s ".md" then strDropRight s 3 else s

/-- File base name without extension, the name a double-bracket reference
denotes. -/
def baseName (p : String) : String := stripMd (lastSegment p)

/-- Modelled from the spec: reference resolution is not in the provided
sources; a reference resolves to a node id already present in the graph
whose base name equals the reference (section 8 example: content with a
double-bracket link to a resolves against the node at /a.md). -/
def resolveRef (g : Graph) (r : String) : Option String :=
  (g.nodes.map Prod.fst).find? (fun id => baseName id == r)

/-- Modelled from the spec: addNodeToGraphWithEdgeHealingFromFSEvent from
the pure graph module is not in the provided sources.  Section 4.2: an
arrival event yields one UpsertNode; edge healing materializes exactly the
references whose target is already present in the graph-so-far, leaving
later targets unresolved (single forward pass, no back healing); a node is
created with no position, since position lives only client-side.  A
Removed event yields a DeleteNode (section 3 kinds). -/
def addNodeToGraphWithEdgeHealingFromFSEvent (ev : FSUpdate) (g : Graph) :
    GraphDelta :=
  match ev.eventType with
  | .Removed => [.DeleteNode ev.absolutePath]
  | _ =>
      [.UpsertNode
        { absoluteFilePathIsID := ev.absolutePath
          content := ev.content
          nodeUIMetadata := { position := none }
          resolvedEdges := (parseRefs ev.content).filterMap (resolveRef g) }]

/-- Modelled from the spec: mapNewGraphToDelta from the pure graph module
is not in the provided sources; section 4.5 specifies an UpsertNode for
every id in the graph, in enumeration order. -/
def mapNewGraphToDelta (g : Graph) : GraphDelta :=
  g.nodes.map (fun p => GraphDeltaOp.UpsertNode p.2)

/-- Modelled from the spec: fromNodeToMarkdownContent from the pure graph
module is not in the provided sources; the serialized text is immaterial
to every claim, which only counts one write per upserted node. -/
def fromNodeToMarkdownContent (n : Node) : String := n.content

/-- First two hundred characters of the content, modelling the slice the
fingerprint samples (line 805). -/
def contentSample (s : String) : String := String.mk (s.data.take 200)

/-- Fingerprint contribution of one file: path, content length and content
sample joined by colons (line 805). -/
def fingerprintEntry (f : FileEntry) : String :=
  f.path ++ ":" ++ toString f.content.length ++ ":" ++ contentSample f.content

/-- Fingerprint of a listing: the per-file entries joined by bars, in
listing order (line 805). -/
def fingerprint (files : List FileEntry) : String :=
  String.intercalate "|" (files.map fingerprintEntry)

/-- File path used for disk writes and deletes: the node id, with .md
appended when not already present (lines 123 to 129). -/
def mdPath (id : String) : String :=
  if strEndsWith id ".md" then id else id ++ ".md"

/-- backendWriteNode (lines 63 to 76): returns false without a request
when no backend port is set; otherwise the response ok flag; a transport
error is caught and becomes false, never an exception. -/
def backendWriteNode (port : Bool) (transport : Except Unit Bool) : Bool :=
  if port then
    match transport with
    | .ok okFlag => okFlag
    | .error _ => false
  else false

/-- backendDeleteNode (lines 78 to 91): same catch-all best-effort shape
as backendWriteNode. -/
def backendDeleteNode (port : Bool) (transport : Except Unit Bool) : Bool :=
  if port then
    match transport with
    | .ok okFlag => okFlag
    | .error _ => false
  else false

/-- Disk traffic of the write/delete loop of applyGraphDelta (lines 120
to 132): one write per UpsertNode, one delete per DeleteNode, in delta
order; env gives the transport outcome of the request at each index. -/
def diskEventsFor (port : Bool) (env : Nat → Except Unit Bool) :
    GraphDelta → Nat → List EffectEvent
  | [], _ => []
  | .UpsertNode n :: rest, i =>
      .diskWrite (mdPath n.absoluteFilePathIsID) (fromNodeToMarkdownContent n)
          (backendWriteNode port (env i)) ::
        diskEventsFor port env rest (i + 1)
  | .DeleteNode nid :: rest, i =>
      .diskDelete (mdPath nid) (backendDeleteNode port (env i)) ::
        diskEventsFor port env rest (i + 1)

/-- MAX_UNDO (line 45). -/
def MAX_UNDO : Nat := 30

/-- Push a snapshot and drop the oldest entry when over capacity (lines
106 to 107). -/
def pushCapped (stack : List Graph) (g : Graph) : List Graph :=
  let s2 := stack ++ [g]
  if MAX_UNDO < s2.length then s2.tail else s2

/-- applyGraphDelta (lines 101 to 141): a no-op for an empty delta;
otherwise snapshot the current graph onto the undo stack (capped) and
clear the redo stack when a current graph exists, apply the delta to the
graph read through getCurrentGraph, issue best-effort disk traffic, push
the delta to the UI subscriber when one is registered, and invalidate the
stored fingerprint. -/
def applyGraphDelta (st : ShimState) (delta : GraphDelta)
    (env : Nat → Except Unit Bool) : ShimState × List EffectEvent :=
  match delta with
  | [] => (st, [])
  | _ =>
      let hist :=
        match st.currentGraph with
        | some g => (pushCapped st.undoStack g, ([] : List Graph))
        | none => (st.undoStack, st.redoStack)
      let oldGraph := st.currentGraph.getD emptyGraph
      let newGraph := applyGraphDeltaToGraph oldGraph delta
      let disk := diskEventsFor st.backendPort env delta 0
      let ui := if st.hasCallback then [EffectEvent.uiPush delta] else []
      ({ st with
          currentGraph := some newGraph
          undoStack := hist.1
          redoStack := hist.2
          lastFileFingerprint := "" },
        disk ++ ui)

/-- One entry of the position-save batch: a Cytoscape node with an id and
an optional position. -/
structure CyNode where
  id : String
  position : Option Pos
deriving DecidableEq

/-- Replace only the position inside the UI metadata of a node, the spread
update both saveNodePositions (lines 157 to 163) and the position merger
(lines 844 to 851) perform. -/
def withPos (n : Node) (p : Pos) : Node :=
  { n with nodeUIMetadata := { n.nodeUIMetadata with position := some p } }

/-- Update one node of the node map from one batch entry (lines 151 to
164): skipped when the entry has no position or the id is unknown;
otherwise only the position inside the UI metadata is replaced. -/
def savePosStep (ns : List (String × Node)) (c : CyNode) :
    List (String × Node) :=
  match c.position with
  | none => ns
  | some p =>
      match lookupKey ns c.id with
      | none => ns
      | some n => updateKey ns c.id (withPos n p)

/-- saveNodePositions (lines 147 to 166): a no-op when no current graph
exists; otherwise fold the batch over a copy of the node map. -/
def saveNodePositions (st : ShimState) (batch : List CyNode) : ShimState :=
  match st.currentGraph with
  | none => st
  | some g => { st with currentGraph := some ⟨batch.foldl savePosStep g.nodes⟩ }

/-- pushFullGraphToUI (lines 202 to 221): a no-op when no current graph or
no subscriber; otherwise emits DeleteNode for every id of the previous
graph absent from the current one, followed by UpsertNode for every node
of the current graph, and invalidates the fingerprint. -/
def pushFullGraphToUI (st : ShimState) (previousGraph : Option Graph) :
    ShimState × List EffectEvent :=
  match st.currentGraph with
  | none => (st, [])
  | some cur =>
      if st.hasCallback then
        let upserts := mapNewGraphToDelta cur
        let deletes :=
          match previousGraph with
          | some prev =>
              ((prev.nodes.map Prod.fst).filter
                  (fun nid => (lookupKey cur.nodes nid).isNone)).map
                GraphDeltaOp.DeleteNode
          | none => []
        ({ st with lastFileFingerprint := "" },
          [EffectEvent.uiPush (deletes ++ upserts)])
      else (st, [])

/-- performUndo (lines 175 to 185): a no-op on an empty undo stack;
otherwise set polling suppression with its pending clear timer, pop the
newest snapshot, push the current graph onto the redo stack when one
exists, adopt the snapshot and reconcile the UI. -/
def performUndo (st : ShimState) : ShimState × List EffectEvent :=
  match st.undoStack.getLast? with
  | none => (st, [])
  | some prev =>
      let st1 : ShimState :=
        { st with
            suppressPolling := true
            pendingSuppressClear := true
            undoStack := st.undoStack.dropLast
            redoStack :=
              match st.currentGraph with
              | some g => st.redoStack ++ [g]
              | none => st.redoStack
            currentGraph := some prev }
      pushFullGraphToUI st1 st.currentGraph

/-- performRedo (lines 187 to 196): symmetric to performUndo, popping the
redo stack and pushing the current graph onto the undo stack (without the
capacity check, which only the local-edit path applies). -/
def performRedo (st : ShimState) : ShimState × List EffectEvent :=
  match st.redoStack.getLast? with
  | none => (st, [])
  | some next =>
      let st1 : ShimState :=
        { st with
            suppressPolling := true
            pendingSuppressClear := true
            redoStack := st.redoStack.dropLast
            undoStack :=
              match st.currentGraph with
              | some g => st.undoStack ++ [g]
              | none => st.undoStack
            currentGraph := some next }
      pushFullGraphToUI st1 st.currentGraph

/-- Delay in milliseconds after which suppression auto-clears (lines 184,
195). -/
def SUPPRESS_CLEAR_DELAY_MS : Nat := 5000

/-- Firing of the timer scheduled by performUndo and performRedo: clears
the suppression flag; a no-op when no clear is pending. -/
def fireSuppressTimeout (st : ShimState) : ShimState :=
  if st.pendingSuppressClear then
    { st with suppressPolling := false, pendingSuppressClear := false }
  else st

/-- onGraphUpdate (lines 467 to 475): registering a subscriber replaces
the previous one. -/
def registerCallback (st : ShimState) : ShimState :=
  { st with hasCallback := true }

/-- The unsubscribe closure of onGraphUpdate: clears the subscriber. -/
def unregisterCallback (st : ShimState) : ShimState :=
  { st with hasCallback := false }

/-- One step of the progressive rebuild loop (lines 824 to 835): produce
the delta of one synthetic Added event against the graph-so-far, fold it
in and accumulate it. -/
def buildStep (acc : Graph × GraphDelta) (f : FileEntry) : Graph × GraphDelta :=
  let delta :=
    addNodeToGraphWithEdgeHealingFromFSEvent
      ⟨f.path, f.content, FSEventType.Added⟩ acc.1
  match delta with
  | [] => acc
  | _ => (applyGraphDeltaToGraph acc.1 delta, acc.2 ++ delta)

/-- The incremental graph builder (lines 821 to 835): a single forward
pass over the listing starting from the empty graph, yielding the built
graph and the concatenated delta. -/
def buildGraph (files : List FileEntry) : Graph × GraphDelta :=
  files.foldl buildStep (createEmptyGraph, [])

/-- Treatment of one fresh node by the position merger (lines 841 to
852): copy the position of the node the previous graph holds under the
same id when that position is defined, keep the fresh node otherwise. -/
def mergeNode (previous : Graph) (id : String) (n : Node) : Node :=
  match lookupKey previous.nodes id with
  | some prevNode =>
      match prevNode.nodeUIMetadata.position with
      | some pos => withPos n pos
      | none => n
  | none => n

/-- The position merger (lines 837 to 854): for every node of the fresh
graph, copy the position the previous graph holds for that id when it is
defined; every other field comes from the fresh graph; ids only in the
previous graph are dropped because only fresh ids are visited. -/
def mergePositions (fresh previous : Graph) : Graph :=
  ⟨fresh.nodes.map (fun p => (p.1, mergeNode previous p.1 p.2))⟩

/-- loadAndPushGraph (lines 783 to 867): one poll cycle.  Returns early
when no backend port is set, when polling is suppressed, or when the fetch
fails.  Otherwise compares the fingerprint of the listing with the stored
one and skips when equal; an empty listing is adopted as an empty graph
with no push; a changed non-empty listing is rebuilt, merged with the
previous positions, adopted, and its deltas pushed to the subscriber. -/
def loadAndPushGraph (st : ShimState) (fetch : FetchResult) : PollResult :=
  if st.backendPort = false then ⟨st, [], false⟩
  else if st.suppressPolling then ⟨st, [], false⟩
  else
    match fetch with
    | .failure => ⟨st, [], false⟩
    | .ok files =>
        let fp := fingerprint files
        if fp = st.lastFileFingerprint then ⟨st, [], false⟩
        else
          match files with
          | [] =>
              ⟨{ st with
                  lastFileFingerprint := fp
                  currentGraph := some emptyGraph }, [], false⟩
          | _ =>
              let built := buildGraph files
              let merged :=
                match st.currentGraph with
                | some prev => mergePositions built.1 prev
                | none => built.1
              let ui :=
                if built.2.isEmpty then []
                else if st.hasCallback then [EffectEvent.uiPush built.2]
                else []
              ⟨{ st with
                  lastFileFingerprint := fp
                  currentGraph := some merged }, ui, !built.2.isEmpty⟩

/-- refreshGraphFromBackend (lines 871 to 874): invalidate the stored
fingerprint, then poll. -/
def refreshGraphFromBackend (st : ShimState) (fetch : FetchResult) : PollResult :=
  loadAndPushGraph { st with lastFileFingerprint := "" } fetch

/-- The state right after installVscodeElectronShim: empty graph cell,
empty stacks, empty fingerprint, no suppression, no subscriber; the
backend port comes from the URL. -/
def initState (port : Bool) : ShimState :=
  ⟨none, [], [], "", false, false, port, false⟩

/-- States reachable from a freshly installed shim through the operations
the shim exposes: subscriber registration, local edits, position saves,
undo, redo, poll cycles and the suppression timer. -/
inductive Reachable : ShimState → Prop where
  | init (port : Bool) : Reachable (initState port)
  | register (s : ShimState) : Reachable s → Reachable (registerCallback s)
  | unregister (s : ShimState) : Reachable s → Reachable (unregisterCallback s)
  | edit (s : ShimState) (d : GraphDelta) (env : Nat → Except Unit Bool) :
      Reachable s → Reachable (applyGraphDelta s d env).1
  | savePos (s : ShimState) (batch : List CyNode) :
      Reachable s → Reachable (saveNodePositions s batch)
  | undo (s : ShimState) : Reachable s → Reachable (performUndo s).1
  | redo (s : ShimState) : Reachable s → Reachable (performRedo s).1
  | poll (s : ShimState) (fetch : FetchResult) :
      Reachable s → Reachable (loadAndPushGraph s fetch).state
  | timer (s : ShimState) : Reachable s → Reachable (fireSuppressTimeout s)

/-- Last position a batch assigns to a given id, skipping entries without
a position; the specification value of the saveNodePositions fold. -/
def lastAppliedPos : List CyNode → String → Option Pos
  | [], _ => none
  | c :: rest, id =>
      match lastAppliedPos rest id with
      | some p => some p
      | none => if c.id = id then c.position else none

/-- Whether the graph holds a healed edge from one node id to another. -/
def hasEdge (g : Graph) (src tgt : String) : Bool :=
  match lookupKey g.nodes src with
  | some n => n.resolvedEdges.contains tgt
  | none => false

/-- Transport oracle whose requests all succeed. -/
def envOk : Nat → Except Unit Bool := fun _ => Except.ok true

/-- Transport oracle whose requests all throw. -/
def envErr : Nat → Except Unit Bool := fun _ => Except.error ()

/-- The first example file of the section 8 scenario. -/
def fileA : FileEntry := ⟨"/a.md", "# A"⟩

/-- The second example file of the section 8 scenario, referencing a. -/
def fileB : FileEntry := ⟨"/b.md", "# B\n[[a]]"⟩

/-- The section 8 listing in forward order. -/
def listingAB : List FileEntry := [fileA, fileB]

/-- The section 8 listing in reversed order. -/
def listingBA : List FileEntry := [fileB, fileA]

/-- The node the builder produces for fileA. -/
def nodeA : Node := ⟨"/a.md", "# A", ⟨none⟩, []⟩

/-- A free-standing node used by concrete edit scenarios. -/
def nodeB : Node := ⟨"/b.md", "# B", ⟨none⟩, []⟩

/-- The graph holding exactly nodeA. -/
def gA : Graph := ⟨[("/a.md", nodeA)]⟩

/-- Freshly installed shim with a backend port. -/
def S0 : ShimState := initState true

/-- S0 after the UI subscribed. -/
def S1 : ShimState := registerCallback S0

/-- S1 after one poll over the single-file listing. -/
def S2 : ShimState := (loadAndPushGraph S1 (FetchResult.ok [fileA])).state

/-- S2 after a local edit upserting nodeB; its undo stack holds gA. -/
def S3 : ShimState := (applyGraphDelta S2 [GraphDeltaOp.UpsertNode nodeB] envOk).1

/-- The example position of the position-preservation scenario. -/
def posA : Pos := ⟨10, 20⟩

/-- S2 after the UI saved position (10, 20) for the node at /a.md. -/
def S2p : ShimState := saveNodePositions S2 [⟨"/a.md", some posA⟩]

/-- The graph holding the node at /a.md carrying position (10, 20). -/
def gAp : Graph := ⟨[("/a.md", withPos nodeA posA)]⟩

/-- The graph holding nodeA and nodeB, in that insertion order. -/
def gAB : Graph := ⟨[("/a.md", nodeA), ("/b.md", nodeB)]⟩

/-- A one-character file used by the fingerprint-flip scenario. -/
def fileA1 : FileEntry := ⟨"/a.md", "A"⟩

/-- fileA1 with one character appended inside the sampled area. -/
def fileA1x : FileEntry := ⟨"/a.md", "AB"⟩

/-- A state whose stored fingerprint is the one of the listing holding
only fileA1. -/
def stFlip : ShimState :=
  { initState true with lastFileFingerprint := fingerprint [fileA1] }

/-- A state holding gA as current graph, used by concrete edit and
position-save scenarios. -/
def stGA : ShimState := { initState true with currentGraph := some gA }

/-- A state with polling suppressed. -/
def stSup : ShimState := { initState true with suppressPolling := true }

/-- Concrete position-save batch assigning (1, 2) to the node at /a.md. -/
def batchW : List CyNode := [⟨"/a.md", some ⟨1, 2⟩⟩]

theorem lookupKey_map_fst {α β : Type} (h : String → α → β)
    (l : List (String × α)) (id : String) :
    lookupKey (l.map (fun p => (p.1, h p.1 p.2))) id =
      (lookupKey l id).map (h id) := by
  induction l with
  | nil => rfl
  | cons p rest ih =>
      obtain ⟨k, v⟩ := p
      simp only [List.map_cons, lookupKey]
      by_cases hk : k = id
      · subst hk; simp
      · simp [hk, ih]

theorem lookupKey_mergePositions (fresh previous : Graph) (id : String) :
    lookupKey (mergePositions fresh previous).nodes id =
      (lookupKey fresh.nodes id).map (mergeNode previous id) :=
  lookupKey_map_fst (mergeNode previous) fresh.nodes id

theorem map_fst_updateKey {α : Type} (l : List (String × α)) (id : String)
    (v : α) : (updateKey l id v).map Prod.fst = l.map Prod.fst := by
  induction l with
  | nil => rfl
  | cons p rest ih =>
      obtain ⟨k, w⟩ := p
      simp only [updateKey]
      by_cases hk : k = id <;> simp [hk, ih]

theorem lookupKey_updateKey_self {α : Type} (l : List (String × α))
    (id : String) (v : α) (h : (lookupKey l id).isSome) :
    lookupKey (updateKey l id v) id = some v := by
  induction l with
  | nil => simp [lookupKey] at h
  | cons p rest ih =>
      obtain ⟨k, w⟩ := p
      simp only [updateKey]
      by_cases hk : k = id
      · simp [lookupKey, hk]
      · simp only [lookupKey, hk, if_neg] at h ⊢
        exact ih h

theorem lookupKey_updateKey_ne {α : Type} (l : List (String × α))
    (id : String) (v : α) (id2 : String) (h : id ≠ id2) :
    lookupKey (updateKey l id v) id2 = lookupKey l id2 := by
  induction l with
  | nil => rfl
  | cons p rest ih =>
      obtain ⟨k, w⟩ := p
      simp only [updateKey]
      by_cases hk : k = id
      · subst hk; simp [lookupKey, h]
      · simp only [lookupKey, hk, if_neg]
        by_cases hk2 : k = id2 <;> simp [hk2, ih]

theorem withPos_withPos (n : Node) (p q : Pos) :
    withPos (withPos n p) q = withPos n q := rfl

theorem savePosStep_keys (ns : List (String × Node)) (c : CyNode) :
    (savePosStep ns c).map Prod.fst = ns.map Prod.fst := by
  unfold savePosStep
  cases c.position with
  | none => rfl
  | some p =>
      cases lookupKey ns c.id with
      | none => rfl
      | some n => simp [map_fst_updateKey]

theorem savePosFold_keys (batch : List CyNode) :
    ∀ ns : List (String × Node),
      ((batch.foldl savePosStep ns).map Prod.fst) = ns.map Prod.fst := by
  induction batch with
  | nil => intro ns; rfl
  | cons c rest ih =>
      intro ns
      simp only [List.foldl_cons]
      rw [ih (savePosStep ns c), savePosStep_keys]

theorem lastAppliedPos_cons (c : CyNode) (rest : List CyNode) (id : String) :
    lastAppliedPos (c :: rest) id =
      match lastAppliedPos rest id with
      | some p => some p
      | none => if c.id = id then c.position else none := rfl

theorem savePosFold_lookup (batch : List CyNode) :
    ∀ (ns : List (String × Node)) (id : String),
      lookupKey (batch.foldl savePosStep ns) id =
        match lookupKey ns id with
        | none => none
        | some n =>
            some (match lastAppliedPos batch id with
              | some p => withPos n p
              | none => n) := by
  induction batch with
  | nil =>
      intro ns id
      cases h : lookupKey ns id <;> simp [lastAppliedPos, h]
  | cons c rest ih =>
      intro ns id
      simp only [List.foldl_cons]
      rw [ih (savePosStep ns c) id, lastAppliedPos_cons]
      unfold savePosStep
      cases hp : c.position with
      | none =>
          cases hm : lookupKey ns id <;>
            cases hl : lastAppliedPos rest id <;>
              by_cases hc : c.id = id <;> simp [hl, hc, hp, hm]
      | some p =>
          cases hn : lookupKey ns c.id with
          | none =>
              by_cases hc : c.id = id
              · subst hc
                cases hl : lastAppliedPos rest c.id <;> simp [hl, hn]
              · cases hm : lookupKey ns id <;>
                  cases hl : lastAppliedPos rest id <;> simp [hl, hc, hm]
          | some n0 =>
              by_cases hc : c.id = id
              · subst hc
                rw [lookupKey_updateKey_self ns c.id (withPos n0 p)
                    (by simp [hn])]
                cases hl : lastAppliedPos rest c.id <;>
                  simp [hl, hp, hn, withPos_withPos]
              · rw [lookupKey_updateKey_ne ns c.id (withPos n0 p) id hc]
                cases hm : lookupKey ns id <;>
                  cases hl : lastAppliedPos rest id <;> simp [hl, hc, hm]

theorem buildStep_snd (acc : Graph × GraphDelta) (f : FileEntry) :
    (buildStep acc f).2 =
      acc.2 ++
        addNodeToGraphWithEdgeHealingFromFSEvent
          ⟨f.path, f.content, FSEventType.Added⟩ acc.1 := by
  simp [buildStep, addNodeToGraphWithEdgeHealingFromFSEvent]

theorem buildFold_snd_length (files : List FileEntry) :
    ∀ acc : Graph × GraphDelta,
      ((files.foldl buildStep acc).2).length = acc.2.length + files.length := by
  induction files with
  | nil => intro acc; simp
  | cons f rest ih =>
      intro acc
      simp only [List.foldl_cons]
      rw [ih (buildStep acc f)]
      rw [buildStep_snd]
      simp [addNodeToGraphWithEdgeHealingFromFSEvent]
      omega

theorem buildGraph_snd_length (files : List FileEntry) :
    (buildGraph files).2.length = files.length := by
  simpa [buildGraph] using buildFold_snd_length files (createEmptyGraph, [])

theorem buildGraph_snd_ne_nil (files : List FileEntry) (h : files ≠ []) :
    (buildGraph files).2 ≠ [] := by
  intro hnil
  have := buildGraph_snd_length files
  rw [hnil] at this
  exact h (List.eq_nil_of_length_eq_zero this.symm)

theorem pushFull_fst_of_some (st : ShimState) (cur : Graph)
    (prevOpt : Option Graph) (h : st.currentGraph = some cur) :
    (pushFullGraphToUI st prevOpt).1 =
      if st.hasCallback then { st with lastFileFingerprint := "" } else st := by
  unfold pushFullGraphToUI
  rw [h]
  cases hcb : st.hasCallback <;> simp [hcb]

theorem pushFull_of_some_callback (st : ShimState) (cur prevg : Graph)
    (h : st.currentGraph = some cur) (hcb : st.hasCallback = true) :
    pushFullGraphToUI st (some prevg) =
      ({ st with lastFileFingerprint := "" },
        [EffectEvent.uiPush
          ((((prevg.nodes.map Prod.fst).filter
                (fun nid => (lookupKey cur.nodes nid).isNone)).map
              GraphDeltaOp.DeleteNode) ++ mapNewGraphToDelta cur)]) := by
  unfold pushFullGraphToUI
  rw [h]
  simp [hcb]

theorem pushFull_frame (st : ShimState) (prevOpt : Option Graph) :
    (pushFullGraphToUI st prevOpt).1.currentGraph = st.currentGraph ∧
    (pushFullGraphToUI st prevOpt).1.undoStack = st.undoStack ∧
    (pushFullGraphToUI st prevOpt).1.redoStack = st.redoStack ∧
    (pushFullGraphToUI st prevOpt).1.suppressPolling = st.suppressPolling ∧
    (pushFullGraphToUI st prevOpt).1.pendingSuppressClear =
      st.pendingSuppressClear ∧
    (pushFullGraphToUI st prevOpt).1.backendPort = st.backendPort ∧
    (pushFullGraphToUI st prevOpt).1.hasCallback = st.hasCallback := by
  unfold pushFullGraphToUI
  cases hc : st.currentGraph <;> cases hcb : st.hasCallback <;> simp [hc, hcb]

theorem performUndo_of_nonempty (s : ShimState) (us : List Graph)
    (p : Graph) (g : Graph) (hu : s.undoStack = us ++ [p])
    (hg : s.currentGraph = some g) :
    performUndo s =
      pushFullGraphToUI
        { s with
            suppressPolling := true
            pendingSuppressClear := true
            undoStack := us
            redoStack := s.redoStack ++ [g]
            currentGraph := some p } (some g) := by
  unfold performUndo
  rw [hu, List.getLast?_concat, List.dropLast_concat, hg]

theorem performRedo_of_nonempty (s : ShimState) (rs : List Graph)
    (nx : Graph) (g : Graph) (hr : s.redoStack = rs ++ [nx])
    (hg : s.currentGraph = some g) :
    performRedo s =
      pushFullGraphToUI
        { s with
            suppressPolling := true
            pendingSuppressClear := true
            redoStack := rs
            undoStack := s.undoStack ++ [g]
            currentGraph := some nx } (some g) := by
  unfold performRedo
  rw [hr, List.getLast?_concat, List.dropLast_concat, hg]

theorem performUndo_fst (s : ShimState) (us : List Graph) (p g : Graph)
    (hu : s.undoStack = us ++ [p]) (hg : s.currentGraph = some g) :
    (performUndo s).1 =
      { s with
          suppressPolling := true
          pendingSuppressClear := true
          undoStack := us
          redoStack := s.redoStack ++ [g]
          currentGraph := some p
          lastFileFingerprint :=
            if s.hasCallback then "" else s.lastFileFingerprint } := by
  rw [performUndo_of_nonempty s us p g hu hg]
  rw [pushFull_fst_of_some _ p _ rfl]
  cases hcb : s.hasCallback <;> simp [hcb]

theorem performRedo_fst (s : ShimState) (rs : List Graph) (nx g : Graph)
    (hr : s.redoStack = rs ++ [nx]) (hg : s.currentGraph = some g) :
    (performRedo s).1 =
      { s with
          suppressPolling := true
          pendingSuppressClear := true
          redoStack := rs
          undoStack := s.undoStack ++ [g]
          currentGraph := some nx
          lastFileFingerprint :=
            if s.hasCallback then "" else s.lastFileFingerprint } := by
  rw [performRedo_of_nonempty s rs nx g hr hg]
  rw [pushFull_fst_of_some _ nx _ rfl]
  cases hcb : s.hasCallback <;> simp [hcb]

theorem fingerprint_nil : fingerprint [] = "" := by decide

theorem poll_no_port (st : ShimState) (fetch : FetchResult)
    (h : st.backendPort = false) : loadAndPushGraph st fetch = ⟨st, [], false⟩ := by
  simp [loadAndPushGraph, h]

theorem poll_suppressed (st : ShimState) (fetch : FetchResult)
    (h : st.suppressPolling = true) :
    loadAndPushGraph st fetch = ⟨st, [], false⟩ := by
  unfold loadAndPushGraph
  cases hbp : st.backendPort <;> simp [hbp, h]

theorem poll_failure (st : ShimState) :
    loadAndPushGraph st FetchResult.failure = ⟨st, [], false⟩ := by
  unfold loadAndPushGraph
  cases hbp : st.backendPort <;> cases hsp : st.suppressPolling <;>
    simp [hbp, hsp]

theorem poll_fp_equal (st : ShimState) (files : List FileEntry)
    (hbp : st.backendPort = true) (hsp : st.suppressPolling = false)
    (hfp : fingerprint files = st.lastFileFingerprint) :
    loadAndPushGraph st (FetchResult.ok files) = ⟨st, [], false⟩ := by
  unfold loadAndPushGraph
  simp [hbp, hsp, hfp]

theorem poll_empty_listing (st : ShimState) (hbp : st.backendPort = true)
    (hsp : st.suppressPolling = false) (hfp : st.lastFileFingerprint ≠ "") :
    loadAndPushGraph st (FetchResult.ok []) =
      ⟨{ st with lastFileFingerprint := "", currentGraph := some emptyGraph },
        [], false⟩ := by
  unfold loadAndPushGraph
  simp [hbp, hsp, fingerprint_nil, Ne.symm hfp]

theorem poll_rebuild (st : ShimState) (f : FileEntry) (fs : List FileEntry)
    (hbp : st.backendPort = true) (hsp : st.suppressPolling = false)
    (hfp : ¬fingerprint (f :: fs) = st.lastFileFingerprint) :
    loadAndPushGraph st (FetchResult.ok (f :: fs)) =
      ⟨{ st with
          lastFileFingerprint := fingerprint (f :: fs)
          currentGraph := some
            (match st.currentGraph with
             | some prev => mergePositions (buildGraph (f :: fs)).1 prev
             | none => (buildGraph (f :: fs)).1) },
        (if (buildGraph (f :: fs)).2.isEmpty then []
         else if st.hasCallback then
           [EffectEvent.uiPush (buildGraph (f :: fs)).2]
         else []),
        !(buildGraph (f :: fs)).2.isEmpty⟩ := by
  unfold loadAndPushGraph
  simp [hbp, hsp, hfp]

theorem poll_frame (st : ShimState) (fetch : FetchResult) :
    (loadAndPushGraph st fetch).state.undoStack = st.undoStack ∧
    (loadAndPushGraph st fetch).state.redoStack = st.redoStack ∧
    (loadAndPushGraph st fetch).state.suppressPolling = st.suppressPolling ∧
    (loadAndPushGraph st fetch).state.pendingSuppressClear =
      st.pendingSuppressClear ∧
    (loadAndPushGraph st fetch).state.backendPort = st.backendPort ∧
    (loadAndPushGraph st fetch).state.hasCallback = st.hasCallback ∧
    (st.currentGraph.isSome →
      (loadAndPushGraph st fetch).state.currentGraph.isSome) := by
  unfold loadAndPushGraph
  by_cases hbp : st.backendPort = false
  · simp [hbp]
  · rw [if_neg hbp]
    by_cases hsp : st.suppressPolling
    · simp [hsp]
    · rw [if_neg hsp]
      cases fetch with
      | failure => simp
      | ok files =>
          by_cases hfp : fingerprint files = st.lastFileFingerprint
          · simp [hfp]
          · cases files with
            | nil => simp [hfp]
            | cons f fs => simp [hfp]

theorem applyGraphDelta_nil (st : ShimState) (env : Nat → Except Unit Bool) :
    applyGraphDelta st [] env = (st, []) := rfl

theorem applyGraphDelta_cons_fst (st : ShimState) (op : GraphDeltaOp)
    (rest : GraphDelta) (env : Nat → Except Unit Bool) :
    (applyGraphDelta st (op :: rest) env).1 =
      { st with
          currentGraph := some
            (applyGraphDeltaToGraph (st.currentGraph.getD emptyGraph)
              (op :: rest))
          undoStack :=
            (match st.currentGraph with
             | some g => pushCapped st.undoStack g
             | none => st.undoStack)
          redoStack :=
            (match st.currentGraph with
             | some _ => []
             | none => st.redoStack)
          lastFileFingerprint := "" } := by
  cases hcg : st.currentGraph <;> simp [applyGraphDelta, hcg]

theorem performUndo_cases (s : ShimState) :
    performUndo s = (s, []) ∨
    ∃ prev, s.undoStack.getLast? = some prev ∧
      (performUndo s).1.currentGraph = some prev ∧
      (performUndo s).1.undoStack = s.undoStack.dropLast ∧
      (performUndo s).1.redoStack =
        (match s.currentGraph with
         | some g => s.redoStack ++ [g]
         | none => s.redoStack) ∧
      (performUndo s).1.suppressPolling = true ∧
      (performUndo s).1.pendingSuppressClear = true ∧
      (performUndo s).1.backendPort = s.backendPort ∧
      (performUndo s).1.hasCallback = s.hasCallback := by
  cases hu : s.undoStack.getLast? with
  | none => left; simp [performUndo, hu]
  | some prev =>
      right
      refine ⟨prev, rfl, ?_, ?_, ?_, ?_, ?_, ?_, ?_⟩ <;>
        simp only [performUndo, hu] <;>
          first
          | exact (pushFull_frame _ _).1.trans rfl
          | exact (pushFull_frame _ _).2.1.trans rfl
          | exact (pushFull_frame _ _).2.2.1.trans rfl
          | exact (pushFull_frame _ _).2.2.2.1.trans rfl
          | exact (pushFull_frame _ _).2.2.2.2.1.trans rfl
          | exact (pushFull_frame _ _).2.2.2.2.2.1.trans rfl
          | exact (pushFull_frame _ _).2.2.2.2.2.2.trans rfl

theorem performRedo_cases (s : ShimState) :
    performRedo s = (s, []) ∨
    ∃ nx, s.redoStack.getLast? = some nx ∧
      (performRedo s).1.currentGraph = some nx ∧
      (performRedo s).1.redoStack = s.redoStack.dropLast ∧
      (performRedo s).1.undoStack =
        (match s.currentGraph with
         | some g => s.undoStack ++ [g]
         | none => s.undoStack) ∧
      (performRedo s).1.suppressPolling = true ∧
      (performRedo s).1.pendingSuppressClear = true ∧
      (performRedo s).1.backendPort = s.backendPort ∧
      (performRedo s).1.hasCallback = s.hasCallback := by
  cases hr : s.redoStack.getLast? with
  | none => left; simp [performRedo, hr]
  | some nx =>
      right
      refine ⟨nx, rfl, ?_, ?_, ?_, ?_, ?_, ?_, ?_⟩ <;>
        simp only [performRedo, hr] <;>
          first
          | exact (pushFull_frame _ _).1.trans rfl
          | exact (pushFull_frame _ _).2.1.trans rfl
          | exact (pushFull_frame _ _).2.2.1.trans rfl
          | exact (pushFull_frame _ _).2.2.2.1.trans rfl
          | exact (pushFull_frame _ _).2.2.2.2.1.trans rfl
          | exact (pushFull_frame _ _).2.2.2.2.2.1.trans rfl
          | exact (pushFull_frame _ _).2.2.2.2.2.2.trans rfl

theorem pushCapped_length (stack : List Graph) (g : Graph) :
    (pushCapped stack g).length =
      if MAX_UNDO < stack.length + 1 then stack.length
      else stack.length + 1 := by
  unfold pushCapped
  simp only [List.length_append, List.length_cons, List.length_nil,
    Nat.zero_add]
  by_cases h : MAX_UNDO < stack.length + 1 <;> simp [h, List.length_tail]

theorem getLast?_some_ne_nil {α : Type} (l : List α) (a : α)
    (h : l.getLast? = some a) : l ≠ [] := by
  intro hnil
  rw [hnil] at h
  simp at h

theorem reachable_stack_sum (s : ShimState) (h : Reachable s) :
    s.undoStack.length + s.redoStack.length ≤ MAX_UNDO := by
  induction h with
  | init port => simp [initState, MAX_UNDO]
  | register s hs ih => simpa [registerCallback] using ih
  | unregister s hs ih => simpa [unregisterCallback] using ih
  | timer s hs ih =>
      unfold fireSuppressTimeout
      by_cases hp : s.pendingSuppressClear <;> simpa [hp] using ih
  | savePos s batch hs ih =>
      unfold saveNodePositions
      cases hcg : s.currentGraph <;> simpa [hcg] using ih
  | edit s d env hs ih =>
      cases d with
      | nil => simpa [applyGraphDelta_nil] using ih
      | cons op rest =>
          rw [applyGraphDelta_cons_fst]
          cases hcg : s.currentGraph with
          | none => simpa using ih
          | some g =>
              simp only [pushCapped_length]
              by_cases hc : MAX_UNDO < s.undoStack.length + 1 <;>
                simp [hc] <;> omega
  | undo s hs ih =>
      rcases performUndo_cases s with heq | ⟨prev, hu, h1, h2, h3, h4⟩
      · rw [heq]; exact ih
      · rw [h2, h3]
        have hne : s.undoStack ≠ [] := getLast?_some_ne_nil _ _ hu
        have hpos : 0 < s.undoStack.length := List.length_pos.mpr hne
        cases hcg : s.currentGraph <;> simp [List.length_dropLast] <;> omega
  | redo s hs ih =>
      rcases performRedo_cases s with heq | ⟨nx, hr, h1, h2, h3, h4⟩
      · rw [heq]; exact ih
      · rw [h2, h3]
        have hne : s.redoStack ≠ [] := getLast?_some_ne_nil _ _ hr
        have hpos : 0 < s.redoStack.length := List.length_pos.mpr hne
        cases hcg : s.currentGraph <;> simp [List.length_dropLast] <;> omega
  | poll s fetch hs ih =>
      obtain ⟨h1, h2, _⟩ := poll_frame s fetch
      rw [h1, h2]
      exact ih

theorem reachable_none_stacks (s : ShimState) (h : Reachable s) :
    s.currentGraph = none → s.undoStack = [] ∧ s.redoStack = [] := by
  induction h with
  | init port => intro _; exact ⟨rfl, rfl⟩
  | register s hs ih => simpa [registerCallback] using ih
  | unregister s hs ih => simpa [unregisterCallback] using ih
  | timer s hs ih =>
      unfold fireSuppressTimeout
      by_cases hp : s.pendingSuppressClear <;> simpa [hp] using ih
  | savePos s batch hs ih =>
      unfold saveNodePositions
      cases hcg : s.currentGraph with
      | none => simpa [hcg] using ih
      | some g => simp [hcg]
  | edit s d env hs ih =>
      cases d with
      | nil => simpa [applyGraphDelta_nil] using ih
      | cons op rest =>
          rw [applyGraphDelta_cons_fst]
          intro hn
          simp at hn
  | undo s hs ih =>
      rcases performUndo_cases s with heq | ⟨prev, hu, h1, h2, h3, h4⟩
      · rw [heq]; exact ih
      · intro hn
        rw [hn] at h1
        cases h1
  | redo s hs ih =>
      rcases performRedo_cases s with heq | ⟨nx, hr, h1, h2, h3, h4⟩
      · rw [heq]; exact ih
      · intro hn
        rw [hn] at h1
        cases h1
  | poll s fetch hs ih =>
      obtain ⟨h1, h2, _, _, _, _, h7⟩ := poll_frame s fetch
      intro hn
      have hsrc : s.currentGraph = none := by
        cases hcg : s.currentGraph with
        | none => rfl
        | some g =>
            have := h7 (by simp [hcg])
            rw [hn] at this
            simp at this
      rw [h1, h2]
      exact ih hsrc

theorem reachable_some_of_stack (s : ShimState) (h : Reachable s)
    (hne : s.undoStack ≠ [] ∨ s.redoStack ≠ []) :
    ∃ g, s.currentGraph = some g := by
  cases hcg : s.currentGraph with
  | some g => exact ⟨g, rfl⟩
  | none =>
      obtain ⟨h1, h2⟩ := reachable_none_stacks s h hcg
      rcases hne with hne | hne
      · exact absurd h1 hne
      · exact absurd h2 hne

/-- C1: position preservation across rebuild.  For every node id present
in both graphs, when the previous graph holds a defined position and the
fresh node carries none, the merged graph stores the fresh node with the
previous position copied in, all other fields coming from the fresh node;
ids only in the previous graph are dropped; ids only in the fresh graph
keep their fresh (position-free) node.  Concretely, a node at (10, 20)
whose content changed on disk is, after a rebuild-and-merge poll cycle,
at (10, 20) with the new content. -/
theorem c1_position_preservation :
    (∀ fresh previous : Graph, ∀ id n pn p,
      lookupKey fresh.nodes id = some n →
      n.nodeUIMetadata.position = none →
      lookupKey previous.nodes id = some pn →
      pn.nodeUIMetadata.position = some p →
      lookupKey (mergePositions fresh previous).nodes id =
        some (withPos n p)) ∧
    (∀ fresh previous : Graph, ∀ id,
      lookupKey fresh.nodes id = none →
      lookupKey (mergePositions fresh previous).nodes id = none) ∧
    (∀ fresh previous : Graph, ∀ id n,
      lookupKey fresh.nodes id = some n →
      lookupKey previous.nodes id = none →
      lookupKey (mergePositions fresh previous).nodes id = some n) ∧
    (loadAndPushGraph S2p
        (FetchResult.ok [⟨"/a.md", "new content"⟩])).state.currentGraph =
      some ⟨[("/a.md", ⟨"/a.md", "new content", ⟨some posA⟩, []⟩)]⟩ := by
  refine ⟨?_, ?_, ?_, ?_⟩
  · intro fresh previous id n pn p h1 _h2 h3 h4
    rw [lookupKey_mergePositions, h1]
    simp [mergeNode, h3, h4]
  · intro fresh previous id h
    rw [lookupKey_mergePositions, h]
    rfl
  · intro fresh previous id n h1 h2
    rw [lookupKey_mergePositions, h1]
    simp [mergeNode, h2]
  · decide

/-- C1 witness: the merge applied to the single-node fresh graph against
the positioned previous graph yields the fresh node at (10, 20). -/
theorem c1_witness :
    lookupKey (mergePositions gA gAp).nodes "/a.md" =
      some (withPos nodeA posA) :=
  c1_position_preservation.1 gA gAp "/a.md" nodeA (withPos nodeA posA) posA
    (by decide) (by decide) (by decide) (by decide)

/-- C2: undo/redo round trip.  From every reachable state whose undo
stack is non-empty, performUndo then performRedo restores the current
graph exactly; performUndo is a no-op on an empty undo stack, performRedo
is a no-op on an empty redo stack, and a non-empty delta applied through
applyGraphDelta right after the undo clears the redo stack entirely. -/
theorem c2_undo_redo_round_trip :
    (∀ s us p, Reachable s → s.undoStack = us ++ [p] →
      ((performRedo (performUndo s).1).1.currentGraph = s.currentGraph ∧
        ∀ d env, d ≠ [] →
          (applyGraphDelta (performUndo s).1 d env).1.redoStack = [])) ∧
    (∀ t : ShimState, t.undoStack = [] → performUndo t = (t, [])) ∧
    (∀ t : ShimState, t.redoStack = [] → performRedo t = (t, [])) := by
  refine ⟨?_, ?_, ?_⟩
  · intro s us p hreach hu
    obtain ⟨g, hg⟩ :=
      reachable_some_of_stack s hreach (Or.inl (by rw [hu]; simp))
    have hufst := performUndo_fst s us p g hu hg
    have h1 : (performUndo s).1.redoStack = s.redoStack ++ [g] := by
      rw [hufst]
    have h2 : (performUndo s).1.currentGraph = some p := by
      rw [hufst]
    constructor
    · have hrfst := performRedo_fst (performUndo s).1 s.redoStack g p h1 h2
      rw [hrfst, hg]
    · intro d env hd
      cases d with
      | nil => exact absurd rfl hd
      | cons op rest =>
          rw [applyGraphDelta_cons_fst]
          simp [h2]
  · intro t ht
    simp [performUndo, ht]
  · intro t ht
    simp [performRedo, ht]

/-- C2 witness: at the concrete reachable state S3 (one poll, one local
edit) the round trip restores the current graph, and both no-op cases
hold at the freshly installed state. -/
theorem c2_witness :
    (performRedo (performUndo S3).1).1.currentGraph = S3.currentGraph ∧
    performUndo (initState true) = (initState true, []) ∧
    performRedo (initState true) = (initState true, []) :=
  ⟨(c2_undo_redo_round_trip.1 S3 [] gA
      (Reachable.edit S2 [GraphDeltaOp.UpsertNode nodeB] envOk
        (Reachable.poll S1 (FetchResult.ok [fileA])
          (Reachable.register S0 (Reachable.init true))))
      (by decide)).1,
    c2_undo_redo_round_trip.2.1 (initState true) rfl,
    c2_undo_redo_round_trip.2.2 (initState true) rfl⟩

/-- C3: undo semantics and delta synthesis.  With a non-empty undo stack,
a current graph and a registered subscriber, performUndo pops the newest
snapshot, pushes the pre-undo current graph onto the redo stack, adopts
the snapshot as current, and sends one delta holding a DeleteNode for
every id of the pre-undo graph absent from the snapshot followed by an
UpsertNode for every node of the snapshot, in that order. -/
theorem c3_undo_delta_synthesis :
    ∀ s us p g, s.undoStack = us ++ [p] → s.currentGraph = some g →
      s.hasCallback = true →
      performUndo s =
        ({ s with
            suppressPolling := true
            pendingSuppressClear := true
            undoStack := us
            redoStack := s.redoStack ++ [g]
            currentGraph := some p
            lastFileFingerprint := "" },
          [EffectEvent.uiPush
            ((((g.nodes.map Prod.fst).filter
                  (fun nid => (lookupKey p.nodes nid).isNone)).map
                GraphDeltaOp.DeleteNode) ++ mapNewGraphToDelta p)]) := by
  intro s us p g hu hg hcb
  rw [performUndo_of_nonempty s us p g hu hg]
  exact pushFull_of_some_callback _ p g rfl hcb

/-- C3 witness: undoing at S3 deletes the node added by the edit and
re-upserts the snapshot node, in that order. -/
theorem c3_witness :
    performUndo S3 =
      ({ S3 with
          suppressPolling := true
          pendingSuppressClear := true
          undoStack := []
          redoStack := [gAB]
          currentGraph := some gA
          lastFileFingerprint := "" },
        [EffectEvent.uiPush
          [GraphDeltaOp.DeleteNode "/b.md", GraphDeltaOp.UpsertNode nodeA]]) :=
  (c3_undo_delta_synthesis S3 [] gA gAB (by decide) (by decide)
      (by decide)).trans (by decide)

/-- C4 counterexample: the claimed equivalence between reporting
changed = false and fingerprint equality fails on an empty listing: with a
non-empty stored fingerprint, polling an empty listing reports
changed = false although the computed fingerprint differs. -/
theorem c4_gate_counterexample :
    ¬(((loadAndPushGraph stFlip (FetchResult.ok [])).changed = false) ↔
      fingerprint [] = stFlip.lastFileFingerprint) := by
  decide

/-- C4 (amended): for an unsuppressed poll with a backend port that
obtains a non-empty listing, changed = false holds iff the computed
fingerprint string-equals the stored one; on fingerprint equality the
poll changes nothing and emits nothing; every listing-obtaining poll
stores the computed fingerprint, so an immediately repeated poll over the
same listing reports unchanged; the empty-listing outcome also reports
changed = false even when its fingerprint differs; appending one
character inside the sampled area flips the example gate to changed. -/
theorem c4_fingerprint_gate :
    (∀ st files, st.backendPort = true → st.suppressPolling = false →
      ((files ≠ [] →
          ((loadAndPushGraph st (FetchResult.ok files)).changed = false ↔
            fingerprint files = st.lastFileFingerprint)) ∧
        (fingerprint files = st.lastFileFingerprint →
          loadAndPushGraph st (FetchResult.ok files) = ⟨st, [], false⟩) ∧
        (loadAndPushGraph st
            (FetchResult.ok files)).state.lastFileFingerprint =
          fingerprint files ∧
        loadAndPushGraph (loadAndPushGraph st (FetchResult.ok files)).state
            (FetchResult.ok files) =
          ⟨(loadAndPushGraph st (FetchResult.ok files)).state, [],
            false⟩)) ∧
    (loadAndPushGraph stFlip (FetchResult.ok [fileA1x])).changed = true := by
  constructor
  · intro st files hbp hsp
    by_cases hfp : fingerprint files = st.lastFileFingerprint
    · rw [poll_fp_equal st files hbp hsp hfp]
      refine ⟨fun _ => by simp [hfp], fun _ => rfl, hfp.symm, ?_⟩
      exact poll_fp_equal st files hbp hsp hfp
    · cases files with
      | nil =>
          rw [poll_empty_listing st hbp hsp
            (fun h => hfp (fingerprint_nil.trans h.symm))]
          refine ⟨fun hne => absurd rfl hne, fun h => absurd h hfp, ?_, ?_⟩
          · exact fingerprint_nil.symm
          · exact poll_fp_equal _ [] hbp hsp fingerprint_nil
      | cons f fs =>
          have hnil : (buildGraph (f :: fs)).2 ≠ [] :=
            buildGraph_snd_ne_nil (f :: fs) (by simp)
          have hemp : (buildGraph (f :: fs)).2.isEmpty = false := by
            cases hl : (buildGraph (f :: fs)).2 with
            | nil => exact absurd hl hnil
            | cons a l => rfl
          rw [poll_rebuild st f fs hbp hsp hfp]
          refine ⟨fun _ => ?_, fun h => absurd h hfp, rfl, ?_⟩
          · simp [hemp, hfp]
          · exact poll_fp_equal _ (f :: fs) hbp hsp rfl
  · decide

/-- C4 witness: the amended gate instantiated at the freshly installed
state and the single-file listing. -/
theorem c4_witness :
    (loadAndPushGraph (initState true)
        (FetchResult.ok [fileA])).changed = false ↔
      fingerprint [fileA] = (initState true).lastFileFingerprint :=
  ((c4_fingerprint_gate.1 (initState true) [fileA] rfl rfl).1 (by decide))

/-- C5 counterexample: on the very first poll the stored fingerprint is
the empty string, which equals the fingerprint of an empty listing, so
the gate short-circuits and the empty graph is not adopted: the current
graph cell stays unset instead of holding the empty graph. -/
theorem c5_first_poll_counterexample :
    (loadAndPushGraph S1 (FetchResult.ok [])).state.currentGraph ≠
        some emptyGraph ∧
      (loadAndPushGraph S1 (FetchResult.ok [])).state.currentGraph =
        none := by
  decide

/-- C5 (amended): an unsuppressed poll with a backend port receiving an
empty listing adopts the empty graph as current with no deltas and no UI
push whenever the stored fingerprint differs from the empty string;
when the stored fingerprint is already empty (notably on the very first
poll) the gate short-circuits first and the poll changes nothing, leaving
the current-graph cell as it was. -/
theorem c5_empty_listing_outcome :
    ∀ st : ShimState, st.backendPort = true → st.suppressPolling = false →
      (st.lastFileFingerprint ≠ "" →
        loadAndPushGraph st (FetchResult.ok []) =
          ⟨{ st with
              lastFileFingerprint := ""
              currentGraph := some emptyGraph }, [], false⟩) ∧
      (st.lastFileFingerprint = "" →
        loadAndPushGraph st (FetchResult.ok []) = ⟨st, [], false⟩) := by
  intro st hbp hsp
  refine ⟨fun h => poll_empty_listing st hbp hsp h, fun h => ?_⟩
  exact poll_fp_equal st [] hbp hsp (fingerprint_nil.trans h.symm)

/-- C5 witness: at the concrete state whose stored fingerprint is
non-empty, polling an empty listing adopts the empty graph silently. -/
theorem c5_witness :
    loadAndPushGraph stFlip (FetchResult.ok []) =
      ⟨{ stFlip with
          lastFileFingerprint := ""
          currentGraph := some emptyGraph }, [], false⟩ :=
  (c5_empty_listing_outcome stFlip rfl rfl).1 (by decide)

/-- C6 counterexample: with the reversed listing, the edge from the node
of b to the node of a is not materialized by the next full rebuild pass
either: after a first poll over the reversed listing and a second,
fingerprint-invalidated rebuild over it, the edge is still absent,
because every rebuild starts from an empty graph and heals only
references to targets earlier in the listing. -/
theorem c6_second_rebuild_counterexample :
    hasEdge
        ((refreshGraphFromBackend
              (loadAndPushGraph S1 (FetchResult.ok listingBA)).state
              (FetchResult.ok listingBA)).state.currentGraph.getD
          emptyGraph)
        "/b.md" "/a.md" ≠ true := by
  decide

/-- C6 (amended): the rebuild is a single forward pass in listing order:
the forward listing materializes the edge from the node of b to the node
of a in one pass; the reversed listing leaves it unresolved even though
both nodes are present, and a subsequent rebuild over the same reversed
listing leaves it unresolved again, since rebuilds start from an empty
graph and carry no cross-rebuild healing memory. -/
theorem c6_one_pass_edge_healing :
    hasEdge (buildGraph listingAB).1 "/b.md" "/a.md" = true ∧
    hasEdge (buildGraph listingBA).1 "/b.md" "/a.md" = false ∧
    (lookupKey (buildGraph listingBA).1.nodes "/a.md").isSome = true ∧
    (lookupKey (buildGraph listingBA).1.nodes "/b.md").isSome = true ∧
    hasEdge
        ((refreshGraphFromBackend
              (loadAndPushGraph S1 (FetchResult.ok listingBA)).state
              (FetchResult.ok listingBA)).state.currentGraph.getD
          emptyGraph)
        "/b.md" "/a.md" = false := by
  decide


theorem diskEventsFor_length (port : Bool) (env : Nat → Except Unit Bool) :
    ∀ (delta : GraphDelta) (i : Nat),
      (diskEventsFor port env delta i).length = delta.length := by
  intro delta
  induction delta with
  | nil => intro i; rfl
  | cons op rest ih => intro i; cases op <;> simp [diskEventsFor, ih]

/-- C7 counterexample: in the initial state, where no current graph has
been established yet, a non-empty delta is applied without pushing any
snapshot onto the undo stack, contradicting the unconditional snapshot
step the claim states. -/
theorem c7_no_snapshot_counterexample :
    ([GraphDeltaOp.DeleteNode "/x"] : GraphDelta) ≠ [] ∧
    (applyGraphDelta (initState true) [GraphDeltaOp.DeleteNode "/x"]
        envOk).1.undoStack = [] :=
  ⟨by decide, by decide⟩

/-- C7 (amended): for every non-empty delta applied while a current graph
exists, applyGraphDelta snapshots that graph onto the capped undo stack,
clears the redo stack, applies the delta in memory, issues one best-effort
disk write per UpsertNode and one disk delete per DeleteNode (in delta
order, before the UI push), pushes the delta to the subscriber when one
is registered, and blanks the stored fingerprint; when no current graph
exists the snapshot and redo-clear steps are skipped but everything else
happens.  The resulting state never depends on the transport outcomes,
and a transport error surfaces only as a false success flag, never as an
exception. -/
theorem c7_local_edit_flow :
    (∀ st g delta env, st.currentGraph = some g → delta ≠ [] →
      applyGraphDelta st delta env =
        ({ st with
            currentGraph := some (applyGraphDeltaToGraph g delta)
            undoStack := pushCapped st.undoStack g
            redoStack := []
            lastFileFingerprint := "" },
          diskEventsFor st.backendPort env delta 0 ++
            (if st.hasCallback then [EffectEvent.uiPush delta] else []))) ∧
    (∀ st delta env1 env2,
      (applyGraphDelta st delta env1).1 = (applyGraphDelta st delta env2).1) ∧
    (∀ port env i delta,
      (diskEventsFor port env delta i).length = delta.length) ∧
    backendWriteNode true (Except.error ()) = false ∧
    backendDeleteNode true (Except.error ()) = false := by
  refine ⟨?_, ?_, ?_, rfl, rfl⟩
  · intro st g delta env hg hd
    cases delta with
    | nil => exact absurd rfl hd
    | cons op rest => simp [applyGraphDelta, hg]
  · intro st delta env1 env2
    cases delta <;> rfl
  · intro port env i delta
    exact diskEventsFor_length port env delta i

/-- C7 witness: a single-upsert edit at the concrete graph-holding state
snapshots the graph, applies the upsert, writes the file successfully,
and blanks the fingerprint. -/
theorem c7_witness :
    applyGraphDelta stGA [GraphDeltaOp.UpsertNode nodeB] envOk =
      ({ stGA with
          currentGraph := some gAB
          undoStack := [gA]
          redoStack := []
          lastFileFingerprint := "" },
        [EffectEvent.diskWrite "/b.md" "# B" true]) :=
  (c7_local_edit_flow.1 stGA gA [GraphDeltaOp.UpsertNode nodeB] envOk rfl
      (by decide)).trans (by decide)

/-- C8: bounded history stacks.  In every reachable state both stacks
hold at most MAX_UNDO snapshots, and a local edit arriving with a full
undo stack silently evicts the oldest entry instead of erroring. -/
theorem c8_bounded_history_stacks :
    ∀ s, Reachable s →
      s.undoStack.length ≤ MAX_UNDO ∧ s.redoStack.length ≤ MAX_UNDO ∧
      (∀ g d env, s.currentGraph = some g → d ≠ [] →
        s.undoStack.length = MAX_UNDO →
        (applyGraphDelta s d env).1.undoStack = s.undoStack.tail ++ [g]) := by
  intro s hr
  have hsum := reachable_stack_sum s hr
  refine ⟨by omega, by omega, ?_⟩
  intro g d env hg hd hlen
  cases d with
  | nil => exact absurd rfl hd
  | cons op rest =>
      rw [applyGraphDelta_cons_fst]
      have hne : s.undoStack ≠ [] := by
        intro h
        rw [h] at hlen
        simp [MAX_UNDO] at hlen
      simp only [hg]
      show pushCapped s.undoStack g = s.undoStack.tail ++ [g]
      unfold pushCapped
      have h30 : MAX_UNDO < (s.undoStack ++ [g]).length := by
        simp only [List.length_append, List.length_cons, List.length_nil,
          hlen, MAX_UNDO]
        omega
      rw [if_pos h30]
      cases hu : s.undoStack with
      | nil => exact absurd hu hne
      | cons a rest2 => simp

/-- C8 witness: the stack bounds instantiated at the freshly installed
state. -/
theorem c8_witness :
    S0.undoStack.length ≤ MAX_UNDO ∧ S0.redoStack.length ≤ MAX_UNDO :=
  ⟨(c8_bounded_history_stacks S0 (Reachable.init true)).1,
    (c8_bounded_history_stacks S0 (Reachable.init true)).2.1⟩

/-- C9: polling suppression around undo/redo.  Undo and redo on non-empty
stacks leave the suppression flag set with its clear timer pending; a
poll cycle in a suppressed state changes nothing, emits nothing, reports
false and ignores whatever the fetch would have returned; the pending
timer clears the flag by itself, after the fixed five-second delay. -/
theorem c9_poll_suppression :
    (∀ s us p, s.undoStack = us ++ [p] →
      (performUndo s).1.suppressPolling = true ∧
      (performUndo s).1.pendingSuppressClear = true) ∧
    (∀ s rs nx, s.redoStack = rs ++ [nx] →
      (performRedo s).1.suppressPolling = true ∧
      (performRedo s).1.pendingSuppressClear = true) ∧
    (∀ st fetch, st.suppressPolling = true →
      loadAndPushGraph st fetch = ⟨st, [], false⟩) ∧
    (∀ st f1 f2, st.suppressPolling = true →
      loadAndPushGraph st f1 = loadAndPushGraph st f2) ∧
    (∀ st, st.pendingSuppressClear = true →
      fireSuppressTimeout st =
        { st with suppressPolling := false, pendingSuppressClear := false }) ∧
    SUPPRESS_CLEAR_DELAY_MS = 5000 := by
  refine ⟨?_, ?_, ?_, ?_, ?_, rfl⟩
  · intro s us p hu
    unfold performUndo
    rw [hu, List.getLast?_concat]
    exact ⟨(pushFull_frame _ _).2.2.2.1.trans rfl,
      (pushFull_frame _ _).2.2.2.2.1.trans rfl⟩
  · intro s rs nx hr
    unfold performRedo
    rw [hr, List.getLast?_concat]
    exact ⟨(pushFull_frame _ _).2.2.2.1.trans rfl,
      (pushFull_frame _ _).2.2.2.2.1.trans rfl⟩
  · intro st fetch h
    exact poll_suppressed st fetch h
  · intro st f1 f2 h
    rw [poll_suppressed st f1 h, poll_suppressed st f2 h]
  · intro st h
    simp [fireSuppressTimeout, h]

/-- C9 witness: undoing at the concrete edited state sets suppression,
and a suppressed state polls to a no-op. -/
theorem c9_witness :
    ((performUndo S3).1.suppressPolling = true ∧
      (performUndo S3).1.pendingSuppressClear = true) ∧
    loadAndPushGraph stSup (FetchResult.ok [fileA]) = ⟨stSup, [], false⟩ :=
  ⟨c9_poll_suppression.1 S3 [] gA (by decide),
    c9_poll_suppression.2.2.1 stSup (FetchResult.ok [fileA]) rfl⟩

theorem lastAppliedPos_none (batch : List CyNode) (id : String)
    (h : ∀ c ∈ batch, c.id ≠ id) : lastAppliedPos batch id = none := by
  induction batch with
  | nil => rfl
  | cons c rest ih =>
      rw [lastAppliedPos_cons,
        ih (fun c2 hm => h c2 (List.mem_cons_of_mem c hm))]
      simp [h c (List.mem_cons_self c rest)]

theorem savePosFold_id (batch : List CyNode) :
    ∀ ns : List (String × Node),
      (∀ c ∈ batch, c.position = none ∨ lookupKey ns c.id = none) →
      batch.foldl savePosStep ns = ns := by
  induction batch with
  | nil => intro ns _; rfl
  | cons c rest ih =>
      intro ns h
      have hstep : savePosStep ns c = ns := by
        unfold savePosStep
        rcases h c (List.mem_cons_self c rest) with hp | hl
        · rw [hp]
        · cases hp : c.position with
          | none => rfl
          | some p => rw [hl]
      rw [List.foldl_cons, hstep]
      exact ih ns (fun c2 hm => h c2 (List.mem_cons_of_mem c hm))

/-- C10: position saves are metadata-only and tolerant.  With a current
graph, a batch changes no key of the node map; every node ends up with
its original fields except that a node named by applicable batch entries
(a position given and the id known) carries the last position those
entries assign; entries with no position or an unknown id are ignored,
an all-ignored batch leaves the state untouched, nodes not named by the
batch are unchanged, and no other part of the state is affected. -/
theorem c10_position_save :
    ∀ st g batch, st.currentGraph = some g →
      (((saveNodePositions st batch).currentGraph.getD
            emptyGraph).nodes.map Prod.fst = g.nodes.map Prod.fst) ∧
      (∀ id,
        lookupKey ((saveNodePositions st batch).currentGraph.getD
            emptyGraph).nodes id =
          match lookupKey g.nodes id with
          | none => none
          | some n =>
              some (match lastAppliedPos batch id with
                | some p => withPos n p
                | none => n)) ∧
      (∀ id n n2,
        lookupKey g.nodes id = some n →
        lookupKey ((saveNodePositions st batch).currentGraph.getD
            emptyGraph).nodes id = some n2 →
        n2.absoluteFilePathIsID = n.absoluteFilePathIsID ∧
          n2.content = n.content ∧ n2.resolvedEdges = n.resolvedEdges) ∧
      (∀ id, (∀ c ∈ batch, c.id ≠ id) →
        lookupKey ((saveNodePositions st batch).currentGraph.getD
            emptyGraph).nodes id = lookupKey g.nodes id) ∧
      ((∀ c ∈ batch, c.position = none ∨ lookupKey g.nodes c.id = none) →
        saveNodePositions st batch = st) ∧
      ((saveNodePositions st batch).undoStack = st.undoStack ∧
        (saveNodePositions st batch).redoStack = st.redoStack ∧
        (saveNodePositions st batch).lastFileFingerprint =
          st.lastFileFingerprint) := by
  intro st g batch hg
  have heq : saveNodePositions st batch =
      { st with currentGraph := some ⟨batch.foldl savePosStep g.nodes⟩ } := by
    unfold saveNodePositions
    rw [hg]
  refine ⟨?_, ?_, ?_, ?_, ?_, ?_⟩
  · rw [heq]
    exact savePosFold_keys batch g.nodes
  · intro id
    rw [heq]
    exact savePosFold_lookup batch g.nodes id
  · intro id n n2 hn hn2
    have hn2b : lookupKey (batch.foldl savePosStep g.nodes) id = some n2 := by
      rw [heq] at hn2
      exact hn2
    have hchar := savePosFold_lookup batch g.nodes id
    rw [hn] at hchar
    rw [hchar] at hn2b
    cases hl : lastAppliedPos batch id with
    | none =>
        rw [hl] at hn2b
        simp only [Option.some.injEq] at hn2b
        rw [← hn2b]
        exact ⟨rfl, rfl, rfl⟩
    | some p =>
        rw [hl] at hn2b
        simp only [Option.some.injEq] at hn2b
        rw [← hn2b]
        exact ⟨rfl, rfl, rfl⟩
  · intro id hnotin
    rw [heq]
    show lookupKey (batch.foldl savePosStep g.nodes) id = lookupKey g.nodes id
    rw [savePosFold_lookup batch g.nodes id,
      lastAppliedPos_none batch id hnotin]
    cases lookupKey g.nodes id <;> rfl
  · intro hign
    rw [heq, savePosFold_id batch g.nodes hign]
    rw [← hg]
  · rw [heq]
    exact ⟨rfl, rfl, rfl⟩

/-- C10 witness: saving position (1, 2) for the node at /a.md updates
only that position. -/
theorem c10_witness :
    lookupKey ((saveNodePositions stGA batchW).currentGraph.getD
        emptyGraph).nodes "/a.md" = some (withPos nodeA ⟨1, 2⟩) :=
  ((c10_position_save stGA gA batchW rfl).2.1 "/a.md").trans (by decide)

end VTShim
